import Mathlib

/-!
Verification development for the `nit` agent-card version-control tool.

The TypeScript sources are shallowly embedded:
* JS strings are modelled as `List Char` (`Str`); byte buffers as `List Nat`
  with every element below 256.
* `node:crypto` SHA-256 / SHA-1 are implemented directly over `Nat`
  arithmetic (32-bit words as `Nat` reduced `% 2^32`), so that every
  definition is executable and digests can be evaluated by `decide`.
* Filesystem state (`.nit/objects`, `.nit/refs/heads`, `HEAD`,
  `agent-card.json`) is modelled by an explicit `RepoState` record; the
  content-addressable object partition is an association list keyed by the
  hex digest.  Thrown JS exceptions become `Except` errors; the state at
  the moment of the throw is returned alongside the error, matching the
  fact that earlier filesystem writes are not rolled back.
* `JSON.parse` of a card object is modelled by an explicit `parseCard`
  parameter (the platform JSON parser is external to the repository);
  `JSON.stringify(card, null, 2)` is modelled by a concrete serializer.
-/

set_option maxRecDepth 1000000

namespace Nit

/-- JS strings, modelled as lists of unicode scalar values. -/
abbrev Str := List Char

/-- Convenience injection from Lean string literals. -/
def jstr (s : String) : Str := s.data

/-- The newline character. -/
def nlChar : Char := Char.ofNat 10

/-- The NUL character used in the object-hash header. -/
def nulChar : Char := Char.ofNat 0

-- ---------------------------------------------------------------------------
-- UTF-8 encoding (Buffer.from(s, 'utf-8'))
-- ---------------------------------------------------------------------------

/-- UTF-8 encoding of a single unicode scalar value. -/
def utf8Char (c : Char) : List Nat :=
  let v := c.toNat
  if v < 128 then [v]
  else if v < 2048 then [192 + v / 64, 128 + v % 64]
  else if v < 65536 then [224 + v / 4096, 128 + v / 64 % 64, 128 + v % 64]
  else [240 + v / 262144, 128 + v / 4096 % 64, 128 + v / 64 % 64, 128 + v % 64]

/-- UTF-8 encoding of a string, as `Buffer.from(s, 'utf-8')`. -/
def utf8 : Str → List Nat
  | [] => []
  | c :: rest => utf8Char c ++ utf8 rest

theorem utf8_append (a b : Str) : utf8 (a ++ b) = utf8 a ++ utf8 b := by
  induction a with
  | nil => simp [utf8]
  | cons c rest ih => simp [utf8, ih]

-- ---------------------------------------------------------------------------
-- Decimal rendering and parsing (template interpolation of numbers / parseInt)
-- ---------------------------------------------------------------------------

/-- Decimal digit character for a value below 10. -/
def digitCh (d : Nat) : Char := Char.ofNat (48 + d)

/-- Fuel-driven decimal rendering; the fuel bounds the recursion depth. -/
def toDecimalF : Nat → Nat → Str
  | 0, _ => []
  | fuel + 1, n => if n < 10 then [digitCh n] else toDecimalF fuel (n / 10) ++ [digitCh (n % 10)]

/-- Decimal rendering of a natural number, as JS number-to-string conversion. -/
def toDecimal (n : Nat) : Str := toDecimalF (n + 1) n

/-- Recognizer for ASCII decimal digits. -/
def isDigitCh (c : Char) : Bool := 48 ≤ c.toNat && c.toNat ≤ 57

/-- Value of an ASCII decimal digit. -/
def digitVal (c : Char) : Nat := c.toNat - 48

/-- JS `parseInt(s, 10)` restricted to the shapes arising here: reads the
leading run of decimal digits; `none` models `NaN` (no leading digit).
Leading whitespace or sign handling is never exercised by the call sites. -/
def parseIntJS (s : Str) : Option Nat :=
  let ds := s.takeWhile isDigitCh
  if ds.isEmpty then none
  else some (ds.foldl (fun a c => a * 10 + digitVal c) 0)

-- ---------------------------------------------------------------------------
-- Hex rendering (Buffer.prototype.toString('hex') / digest('hex'))
-- ---------------------------------------------------------------------------

/-- Lowercase hex digit character for a value below 16. -/
def hexDigitCh (d : Nat) : Char :=
  if d < 10 then Char.ofNat (48 + d) else Char.ofNat (87 + d)

/-- Lowercase hex rendering of a byte list, two characters per byte. -/
def hexOfBytes : List Nat → Str
  | [] => []
  | b :: rest => hexDigitCh (b / 16) :: hexDigitCh (b % 16) :: hexOfBytes rest

-- ---------------------------------------------------------------------------
-- Newline splitting and joining (String.prototype.split('\n') / Array.join)
-- ---------------------------------------------------------------------------

/-- JS `raw.split('\n')` over the character list. -/
def splitOnNl : Str → List Str
  | [] => [[]]
  | c :: rest =>
    if c = nlChar then [] :: splitOnNl rest
    else
      match splitOnNl rest with
      | [] => [[c]]
      | h :: t => (c :: h) :: t

/-- JS `lines.join('\n')`. -/
def joinNl : List Str → Str
  | [] => []
  | [l] => l
  | l :: l2 :: rest => l ++ nlChar :: joinNl (l2 :: rest)

/-- JS `s.lastIndexOf(c)`, as an `Option` (JS returns `-1` when absent). -/
def lastIdxOf (ch : Char) : Str → Option Nat
  | [] => none
  | c :: rest =>
    match lastIdxOf ch rest with
    | some i => some (i + 1)
    | none => if c = ch then some 0 else none

-- ---------------------------------------------------------------------------
-- 32-bit word helpers over Nat
-- ---------------------------------------------------------------------------

/-- Reduction to a 32-bit word. -/
def w32 (n : Nat) : Nat := n % 4294967296

/-- Rotate a 32-bit word right by `k` bits. -/
def rotr (x k : Nat) : Nat := w32 ((x >>> k) ||| (x <<< (32 - k)))

/-- Rotate a 32-bit word left by `k` bits. -/
def rotl (x k : Nat) : Nat := w32 ((x <<< k) ||| (x >>> (32 - k)))

/-- Plain right shift. -/
def shr (x k : Nat) : Nat := x >>> k

/-- Iterate a function a fixed number of times. -/
def iterate (f : α → α) : Nat → α → α
  | 0, a => a
  | n + 1, a => iterate f n (f a)

/-- Big-endian bytes of a 32-bit word. -/
def word32be (w : Nat) : List Nat :=
  [w / 16777216 % 256, w / 65536 % 256, w / 256 % 256, w % 256]

/-- Big-endian bytes of a 64-bit word. -/
def word64be (w : Nat) : List Nat :=
  [w / 72057594037927936 % 256, w / 281474976710656 % 256,
   w / 1099511627776 % 256, w / 4294967296 % 256,
   w / 16777216 % 256, w / 65536 % 256, w / 256 % 256, w % 256]

/-- Split a padded message into 64-byte blocks (fuel bounds the recursion). -/
def toBlocksF : Nat → List Nat → List (List Nat)
  | 0, _ => []
  | _ + 1, [] => []
  | fuel + 1, l => (l.take 64) :: toBlocksF fuel (l.drop 64)

/-- Split a padded message into 64-byte blocks. -/
def toBlocks (l : List Nat) : List (List Nat) := toBlocksF l.length l

/-- Big-endian 4-byte groups to 32-bit words. -/
def bytesToWords : List Nat → List Nat
  | a :: b :: c :: d :: rest => (a * 16777216 + b * 65536 + c * 256 + d) :: bytesToWords rest
  | _ => []

/-- Merkle–Damgård padding shared by SHA-256 and SHA-1: a 0x80 byte, zeros to
55 mod 64, and the 64-bit big-endian bit length. -/
def shaPad (msg : List Nat) : List Nat :=
  let len := msg.length
  let z := (64 + 55 - len % 64) % 64
  msg ++ [128] ++ List.replicate z 0 ++ word64be (len * 8)

-- ---------------------------------------------------------------------------
-- SHA-256 (node:crypto createHash('sha256'))
-- ---------------------------------------------------------------------------

/-- The 64 SHA-256 round constants, written in decimal. -/
def K256 : List Nat :=
  [1116352408, 1899447441, 3049323471, 3921009573, 961987163,
   1508970993, 2453635748, 2870763221, 3624381080, 310598401,
   607225278, 1426881987, 1925078388, 2162078206, 2614888103,
   3248222580, 3835390401, 4022224774, 264347078, 604807628,
   770255983, 1249150122, 1555081692, 1996064986, 2554220882,
   2821834349, 2952996808, 3210313671, 3336571891, 3584528711,
   113926993, 338241895, 666307205, 773529912, 1294757372,
   1396182291, 1695183700, 1986661051, 2177026350, 2456956037,
   2730485921, 2820302411, 3259730800, 3345764771, 3516065817,
   3600352804, 4094571909, 275423344, 430227734, 506948616,
   659060556, 883997877, 958139571, 1322822218, 1537002063,
   1747873779, 1955562222, 2024104815, 2227730452, 2361852424,
   2428436474, 2756734187, 3204031479, 3329325298]

/-- One message-schedule extension step: append the next word. -/
def extendStep (w : List Nat) : List Nat :=
  let i := w.length
  let s0 := (rotr (w.getD (i - 15) 0) 7) ^^^ (rotr (w.getD (i - 15) 0) 18) ^^^ (shr (w.getD (i - 15) 0) 3)
  let s1 := (rotr (w.getD (i - 2) 0) 17) ^^^ (rotr (w.getD (i - 2) 0) 19) ^^^ (shr (w.getD (i - 2) 0) 10)
  w ++ [w32 (w.getD (i - 16) 0 + s0 + w.getD (i - 7) 0 + s1)]

/-- Extend the 16 schedule words by 48 more to reach 64. -/
def extendW (w : List Nat) : List Nat := iterate extendStep 48 w

/-- The eight SHA-256 working variables. -/
structure H8 where
  a : Nat
  b : Nat
  c : Nat
  d : Nat
  e : Nat
  f : Nat
  g : Nat
  h : Nat
deriving DecidableEq

/-- One SHA-256 round. -/
def step256 (st : H8) (kw : Nat × Nat) : H8 :=
  let S1 := (rotr st.e 6) ^^^ (rotr st.e 11) ^^^ (rotr st.e 25)
  let ch := (st.e &&& st.f) ^^^ ((4294967295 ^^^ st.e) &&& st.g)
  let t1 := w32 (st.h + S1 + ch + kw.1 + kw.2)
  let S0 := (rotr st.a 2) ^^^ (rotr st.a 13) ^^^ (rotr st.a 22)
  let maj := (st.a &&& st.b) ^^^ (st.a &&& st.c) ^^^ (st.b &&& st.c)
  let t2 := w32 (S0 + maj)
  ⟨w32 (t1 + t2), st.a, st.b, st.c, w32 (st.d + t1), st.e, st.f, st.g⟩

/-- SHA-256 compression of one 64-byte block. -/
def compress256 (h : H8) (block : List Nat) : H8 :=
  let w := extendW (bytesToWords block)
  let st := (K256.zip w).foldl step256 h
  ⟨w32 (h.a + st.a), w32 (h.b + st.b), w32 (h.c + st.c), w32 (h.d + st.d),
   w32 (h.e + st.e), w32 (h.f + st.f), w32 (h.g + st.g), w32 (h.h + st.h)⟩

/-- The SHA-256 initialization vector. -/
def sha256init : H8 :=
  ⟨1779033703, 3144134277, 1013904242, 2773480762,
   1359893119, 2600822924, 528734635, 1541459225⟩

/-- SHA-256 digest of a byte list, as a list of 32 bytes. -/
def sha256 (msg : List Nat) : List Nat :=
  let hh := (toBlocks (shaPad msg)).foldl compress256 sha256init
  word32be hh.a ++ word32be hh.b ++ word32be hh.c ++ word32be hh.d ++
  word32be hh.e ++ word32be hh.f ++ word32be hh.g ++ word32be hh.h

/-- Validation of the embedding: NIST test vector for the empty message. -/
example : hexOfBytes (sha256 []) =
    ("e3b0c44298fc1c149afbf4c8996fb92427ae41e4649b934ca495991b7852b855").data := by decide

-- ---------------------------------------------------------------------------
-- SHA-1 (node:crypto createHash('sha1'), used only for UUIDv5 derivation)
-- ---------------------------------------------------------------------------

/-- The SHA-1 round constant for round `i`. -/
def K1 (i : Nat) : Nat :=
  if i < 20 then 1518500249
  else if i < 40 then 1859775393
  else if i < 60 then 2400959708
  else 3395469782

/-- The SHA-1 round function for round `i`. -/
def F1 (i b c d : Nat) : Nat :=
  if i < 20 then (b &&& c) ||| ((4294967295 ^^^ b) &&& d)
  else if i < 40 then b ^^^ c ^^^ d
  else if i < 60 then (b &&& c) ||| (b &&& d) ||| (c &&& d)
  else b ^^^ c ^^^ d

/-- One SHA-1 schedule extension step. -/
def sha1ExtStep (w : List Nat) : List Nat :=
  let i := w.length
  w ++ [rotl ((w.getD (i - 3) 0) ^^^ (w.getD (i - 8) 0) ^^^ (w.getD (i - 14) 0) ^^^ (w.getD (i - 16) 0)) 1]

/-- Extend the 16 SHA-1 schedule words by 64 more to reach 80. -/
def sha1Extend (w : List Nat) : List Nat := iterate sha1ExtStep 64 w

/-- The five SHA-1 working variables. -/
structure H5 where
  a : Nat
  b : Nat
  c : Nat
  d : Nat
  e : Nat
deriving DecidableEq

/-- One SHA-1 round; the pair carries the round index and schedule word. -/
def step1 (st : H5) (iw : Nat × Nat) : H5 :=
  let t := w32 (rotl st.a 5 + F1 iw.1 st.b st.c st.d + st.e + K1 iw.1 + iw.2)
  ⟨t, st.a, rotl st.b 30, st.c, st.d⟩

/-- SHA-1 compression of one 64-byte block. -/
def compress1 (h : H5) (block : List Nat) : H5 :=
  let w := sha1Extend (bytesToWords block)
  let st := ((List.range 80).zip w).foldl step1 h
  ⟨w32 (h.a + st.a), w32 (h.b + st.b), w32 (h.c + st.c), w32 (h.d + st.d), w32 (h.e + st.e)⟩

/-- The SHA-1 initialization vector. -/
def sha1init : H5 := ⟨1732584193, 4023233417, 2562383102, 271733878, 3285377520⟩

/-- SHA-1 digest of a byte list, as a list of 20 bytes. -/
def sha1 (msg : List Nat) : List Nat :=
  let hh := (toBlocks (shaPad msg)).foldl compress1 sha1init
  word32be hh.a ++ word32be hh.b ++ word32be hh.c ++ word32be hh.d ++ word32be hh.e

/-- Validation of the embedding: SHA-1 test vector for "abc". -/
example : hexOfBytes (sha1 [97, 98, 99]) =
    ("a9993e364706816aba3e25717850c26c9cd0d89d").data := by decide

-- ---------------------------------------------------------------------------
-- src/objects.ts — content-addressable object store
-- ---------------------------------------------------------------------------

/-- Object kinds, the `type` parameter of `hashObject`/`writeObject`. -/
inductive ObjKind where
  | card : ObjKind
  | commit : ObjKind
deriving DecidableEq

/-- Rendering of an object kind inside the hash header. -/
def kindStr : ObjKind → Str
  | .card => jstr ("card")
  | .commit => jstr ("commit")

/-- Embedding of `hashObject`: the header is the string
interpolation of the kind, a space, the UTF-8 byte length and a NUL, and the
digest is SHA-256 over the header bytes followed by the content bytes. -/
def hashObject (type : ObjKind) (content : Str) : Str :=
  let buf := utf8 content
  let header := kindStr type ++ ' ' :: toDecimal buf.length ++ [nulChar]
  hexOfBytes (sha256 (utf8 header ++ buf))

/-- Validation of the embedding: `hashObject('card', 'hi')` as computed by the
reference SHA-256. -/
example : hashObject .card (jstr ("hi")) =
    ("74fd52b54ecac47eb6d1abbf4738148cbe7b54f78e27ddb09813a70269ea80a9").data := by decide

/-- The object partition of a `.nit` store: digest-keyed association list.
The on-disk two-level layout (first two hex characters as directory) is a
bijective renaming of the digest and is abstracted away. -/
abbrev Store := List (Str × Str)

/-- First-match association-list lookup. -/
def lookupA : List (Str × Str) → Str → Option Str
  | [], _ => none
  | (k, v) :: rest, key => if k = key then some v else lookupA rest key

/-- Embedding of `writeObject`: compute the digest; if an object already
exists at that digest the write is skipped, otherwise the content is stored.
Returns the hex digest together with the updated store. -/
def writeObjectS (store : Store) (type : ObjKind) (content : Str) : Str × Store :=
  let hex := hashObject type content
  match lookupA store hex with
  | some _ => (hex, store)
  | none => (hex, (hex, content) :: store)

/-- Embedding of `readObject`: `none` models the thrown Object-not-found
error. -/
def readObjectS (store : Store) (hash : Str) : Option Str :=
  lookupA store hash

-- ---------------------------------------------------------------------------
-- src/objects.ts — commit record serialization and parsing
-- ---------------------------------------------------------------------------

/-- Input of `serializeCommit`: a commit record without `type`/`hash`. -/
structure CommitData where
  card : Str
  parent : Option Str
  author : Str
  timestamp : Nat
  message : Str
deriving DecidableEq

/-- Embedding of `serializeCommit`: the line-oriented text form —
a `card` line, an optional `parent` line, an `author` line carrying the
timestamp, a blank line, then the free-form message. -/
def serializeCommit (c : CommitData) : Str :=
  let lines : List Str :=
    [jstr ("card ") ++ c.card] ++
    (match c.parent with
     | none => []
     | some p => [jstr ("parent ") ++ p]) ++
    [jstr ("author ") ++ c.author ++ ' ' :: toDecimal c.timestamp] ++
    [[]] ++
    [c.message]
  joinNl lines

/-- Result of `parseCommit`.  `timestamp = none` models the `NaN` that JS
`parseInt` produces on a digit-free string. -/
structure ParsedCommit where
  hash : Str
  card : Str
  parent : Option Str
  author : Str
  timestamp : Option Nat
  message : Str
deriving DecidableEq

deriving instance DecidableEq for Except

/-- Accumulator of the header-parsing loop in `parseCommit`. -/
structure ParseAcc where
  card : Str
  parent : Option Str
  author : Str
  timestamp : Option Nat
deriving DecidableEq

/-- The header loop of `parseCommit`: scan lines until the first blank line;
return the accumulated fields and, when a blank line was found, the
remaining message lines. -/
def parseLoop : List Str → ParseAcc → ParseAcc × Option (List Str)
  | [], st => (st, none)
  | l :: rest, st =>
    if l = [] then (st, some rest)
    else
      let st :=
        if (jstr ("card ")).isPrefixOf l then { st with card := l.drop 5 }
        else if (jstr ("parent ")).isPrefixOf l then { st with parent := some (l.drop 7) }
        else if (jstr ("author ")).isPrefixOf l then
          let ap := l.drop 7
          match lastIdxOf ' ' ap with
          | some i => { st with author := ap.take i, timestamp := parseIntJS (ap.drop (i + 1)) }
          | none => { st with author := ap.take (ap.length - 1), timestamp := parseIntJS ap }
        else st
      parseLoop rest st

/-- Embedding of `parseCommit`: split on newlines, run the header loop,
fail when no card digest was found, and join the message lines back. -/
def parseCommit (hash : Str) (raw : Str) : Except Str ParsedCommit :=
  let lines := splitOnNl raw
  let (st, msgLines) := parseLoop lines ⟨[], none, [], none⟩
  if st.card = [] then .error (jstr ("Malformed commit object: missing card hash"))
  else
    .ok ⟨hash, st.card, st.parent, st.author, st.timestamp,
      match msgLines with
      | some ls => joinNl ls
      | none => []⟩

/-- Validation of the embedding: a serialized two-parent-line-free commit
parses back field by field. -/
example :
    parseCommit (jstr ("h1"))
      (serializeCommit ⟨jstr ("abc"), some (jstr ("def")), jstr ("Emil X"), 17, jstr ("two words")⟩) =
    .ok ⟨jstr ("h1"), jstr ("abc"), some (jstr ("def")), jstr ("Emil X"), some 17, jstr ("two words")⟩ := by
  decide

-- ---------------------------------------------------------------------------
-- src/identity.ts — self-sovereign agent ID derivation (UUIDv5)
-- ---------------------------------------------------------------------------

/-- Value of a lowercase/uppercase hex digit character. -/
def hexVal (c : Char) : Nat :=
  if c.toNat ≤ 57 then c.toNat - 48
  else if c.toNat ≤ 70 then c.toNat - 55
  else c.toNat - 87

/-- Pair up hex characters into bytes (Buffer.from(hex, 'hex')). -/
def hexPairsToBytes : Str → List Nat
  | a :: b :: rest => (hexVal a * 16 + hexVal b) :: hexPairsToBytes rest
  | _ => []

/-- Embedding of `parseUuid`: strip hyphens and hex-decode. -/
def parseUuid (u : Str) : List Nat :=
  hexPairsToBytes (u.filter (fun c => c ≠ '-'))

/-- Embedding of `formatUuid`: hex-encode and hyphenate 8-4-4-4-12. -/
def formatUuid (bytes : List Nat) : Str :=
  let hex := hexOfBytes bytes
  (hex.take 8) ++ '-' :: ((hex.drop 8).take 4) ++ '-' :: ((hex.drop 12).take 4) ++
    '-' :: ((hex.drop 16).take 4) ++ '-' :: ((hex.drop 20).take 12)

/-- The fixed namespace UUID for nit agent ID derivation (`NIT_NAMESPACE`). -/
def NIT_NAMESPACE : Str := jstr ("801ba518-f326-47e5-97c9-d1efd1865a19")

/-- Embedding of `uuidv5`: SHA-1 over namespace bytes followed by the UTF-8
name bytes; first 16 bytes with the version and variant bits forced. -/
def uuidv5 (name ns : Str) : Str :=
  let namespaceBytes := parseUuid ns
  let nameBytes := utf8 name
  let hash := sha1 (namespaceBytes ++ nameBytes)
  let uuid := hash.take 16
  let uuid := uuid.set 6 ((uuid.getD 6 0 &&& 15) ||| 80)
  let uuid := uuid.set 8 ((uuid.getD 8 0 &&& 63) ||| 128)
  formatUuid uuid

/-- Embedding of `deriveAgentId`. -/
def deriveAgentId (publicKeyField : Str) : Str := uuidv5 publicKeyField NIT_NAMESPACE

/-- Validation of the embedding: agrees with the RFC 4122 UUIDv5 reference
implementation on a sample key field. -/
example : deriveAgentId (jstr ("ed25519:AAAA")) =
    ("06282e7b-f226-50b2-9ce2-e12dd3723488").data := by decide

-- ---------------------------------------------------------------------------
-- src/remote.ts — canonical signed message of buildAuthHeaders
-- ---------------------------------------------------------------------------

/-- Embedding of `sha256Hex`: lowercase-hex SHA-256 of a UTF-8 string. -/
def sha256Hex (data : Str) : Str := hexOfBytes (sha256 (utf8 data))

/-- Embedding of the canonical signed message built by `buildAuthHeaders`:
the method, path, agent id and timestamp joined by newlines, with the body
digest appended on a further line when a body is present. -/
def canonicalMessage (method path agentId timestamp : Str) (body : Option Str) : Str :=
  let message := method ++ nlChar :: path ++ nlChar :: agentId ++ nlChar :: timestamp
  match body with
  | none => message
  | some b => message ++ nlChar :: sha256Hex b

-- ---------------------------------------------------------------------------
-- src/types.ts — the agent card document
-- ---------------------------------------------------------------------------

/-- The nested `provider` object, modelled as an ordered key/value list so
that the insertion order a JS object carries (and `JSON.stringify` exposes)
is preserved. -/
abbrev Provider := List (Str × Str)

/-- A single skill entry of an agent card. -/
structure Skill where
  id : Str
  name : Str
  description : Str
  tags : Option (List Str)
  examples : Option (List Str)
  inputModes : Option (List Str)
  outputModes : Option (List Str)
deriving DecidableEq

/-- The A2A-compatible agent card of `src/types.ts`. -/
structure AgentCard where
  protocolVersion : Str
  name : Str
  description : Str
  version : Str
  url : Str
  publicKey : Option Str
  defaultInputModes : List Str
  defaultOutputModes : List Str
  skills : List Skill
  iconUrl : Option Str
  documentationUrl : Option Str
  provider : Option Provider
deriving DecidableEq

-- ---------------------------------------------------------------------------
-- JSON rendering helpers (JSON.stringify on the value shapes used here)
-- ---------------------------------------------------------------------------

/-- The double-quote character. -/
def quoteChar : Char := Char.ofNat 34

/-- The backslash character. -/
def bslashChar : Char := Char.ofNat 92

/-- The opening curly brace character. -/
def lbraceChar : Char := Char.ofNat 123

/-- The closing curly brace character. -/
def rbraceChar : Char := Char.ofNat 125

/-- JSON string escaping for the characters that need it here. -/
def escCh (c : Char) : Str :=
  if c = quoteChar then [bslashChar, quoteChar]
  else if c = bslashChar then [bslashChar, bslashChar]
  else [c]

/-- JSON rendering of a string value. -/
def jsonQuote (s : Str) : Str :=
  quoteChar :: (s.map escCh).flatten ++ [quoteChar]

/-- Comma-join a list of rendered values. -/
def joinComma : List Str → Str
  | [] => []
  | [x] => x
  | x :: y :: rest => x ++ ',' :: joinComma (y :: rest)

/-- JSON rendering of a string array. -/
def arrStringify (xs : List Str) : Str :=
  '[' :: joinComma (xs.map jsonQuote) ++ [']']

/-- One rendered `key:value` member. -/
def kvJ (k : Str) (v : Str) : Str := jsonQuote k ++ ':' :: v

/-- JSON rendering of `provider ?? null`, in key insertion order —
exactly what `JSON.stringify(card.provider ?? null)` produces. -/
def providerStringify : Option Provider → Str
  | none => jstr ("null")
  | some kvs => lbraceChar :: joinComma (kvs.map (fun kv => kvJ kv.1 (jsonQuote kv.2))) ++ [rbraceChar]

/-- JSON rendering of a skill record (undefined optional members omitted,
as `JSON.stringify` omits them). -/
def skillStringify (s : Skill) : Str :=
  let optArr (k : Str) : Option (List Str) → List Str
    | none => []
    | some xs => [kvJ k (arrStringify xs)]
  lbraceChar :: joinComma (
    [kvJ (jstr ("id")) (jsonQuote s.id),
     kvJ (jstr ("name")) (jsonQuote s.name),
     kvJ (jstr ("description")) (jsonQuote s.description)] ++
    optArr (jstr ("tags")) s.tags ++
    optArr (jstr ("examples")) s.examples ++
    optArr (jstr ("inputModes")) s.inputModes ++
    optArr (jstr ("outputModes")) s.outputModes) ++ [rbraceChar]

/-- JSON rendering of a whole card.  This stands in for
`JSON.stringify(card, null, 2)`; the claims treat the serialized card as an
opaque content string fed to the digest, so the pretty-printing whitespace
of the original is irrelevant and omitted. -/
def serializeCard (c : AgentCard) : Str :=
  let optStr (k : Str) : Option Str → List Str
    | none => []
    | some v => [kvJ k (jsonQuote v)]
  lbraceChar :: joinComma (
    [kvJ (jstr ("protocolVersion")) (jsonQuote c.protocolVersion),
     kvJ (jstr ("name")) (jsonQuote c.name),
     kvJ (jstr ("description")) (jsonQuote c.description),
     kvJ (jstr ("version")) (jsonQuote c.version),
     kvJ (jstr ("url")) (jsonQuote c.url)] ++
    optStr (jstr ("publicKey")) c.publicKey ++
    [kvJ (jstr ("defaultInputModes")) (arrStringify c.defaultInputModes),
     kvJ (jstr ("defaultOutputModes")) (arrStringify c.defaultOutputModes),
     kvJ (jstr ("skills")) ('[' :: joinComma (c.skills.map skillStringify) ++ [']'])] ++
    optStr (jstr ("iconUrl")) c.iconUrl ++
    optStr (jstr ("documentationUrl")) c.documentationUrl ++
    (match c.provider with
     | none => []
     | some p => [kvJ (jstr ("provider")) (providerStringify (some p))])) ++ [rbraceChar]

-- ---------------------------------------------------------------------------
-- src/diff.ts — structural diff engine
-- ---------------------------------------------------------------------------

/-- A JS value as it appears in a field diff entry. -/
inductive JsVal where
  | str : Str → JsVal
  | undef : JsVal
  | arr : List Str → JsVal
  | obj : Option Provider → JsVal
deriving DecidableEq

/-- Lift an optional scalar to the JS value it denotes. -/
def jsOfOpt : Option Str → JsVal
  | none => .undef
  | some s => .str s

/-- A single field-level change (`FieldDiff`). -/
structure FieldDiff where
  field : Str
  oldV : JsVal
  newV : JsVal
deriving DecidableEq

/-- Structured diff result (`DiffResult`). -/
structure DiffResult where
  changed : Bool
  fields : List FieldDiff
  skillsAdded : List Str
  skillsRemoved : List Str
  skillsModified : List Str
deriving DecidableEq

/-- Embedding of `skillsEqual`: equality of the JSON renderings. -/
def skillsEqual (a b : Skill) : Bool := skillStringify a == skillStringify b

/-- Key iteration order of `new Map(skills.map(s => [s.id, s]))`:
first-insertion order with duplicates removed. -/
def skillIds (l : List Skill) : List Str := (l.map (fun s => s.id)).eraseDups

/-- Value lookup of the same `Map`: the last entry for an id wins. -/
def mapGetSkill (l : List Skill) (id : Str) : Option Skill :=
  l.reverse.find? (fun s => s.id == id)

/-- Embedding of `diffCards`: scalar fields by strict equality, `provider`
by equality of `JSON.stringify(provider ?? null)`, the mode arrays by
equality of their JSON renderings, and skills by id-keyed map comparison. -/
def diffCards (oldCard newCard : AgentCard) : DiffResult :=
  let scalarPairs : List (Str × JsVal × JsVal) :=
    [(jstr ("protocolVersion"), .str oldCard.protocolVersion, .str newCard.protocolVersion),
     (jstr ("name"), .str oldCard.name, .str newCard.name),
     (jstr ("description"), .str oldCard.description, .str newCard.description),
     (jstr ("version"), .str oldCard.version, .str newCard.version),
     (jstr ("url"), .str oldCard.url, .str newCard.url),
     (jstr ("publicKey"), jsOfOpt oldCard.publicKey, jsOfOpt newCard.publicKey),
     (jstr ("iconUrl"), jsOfOpt oldCard.iconUrl, jsOfOpt newCard.iconUrl),
     (jstr ("documentationUrl"), jsOfOpt oldCard.documentationUrl, jsOfOpt newCard.documentationUrl)]
  let fieldsScalar :=
    (scalarPairs.filter (fun t => t.2.1 != t.2.2)).map (fun t => FieldDiff.mk t.1 t.2.1 t.2.2)
  let fieldsProvider :=
    if providerStringify oldCard.provider != providerStringify newCard.provider then
      [FieldDiff.mk (jstr ("provider")) (.obj oldCard.provider) (.obj newCard.provider)]
    else []
  let arrayPairs : List (Str × List Str × List Str) :=
    [(jstr ("defaultInputModes"), oldCard.defaultInputModes, newCard.defaultInputModes),
     (jstr ("defaultOutputModes"), oldCard.defaultOutputModes, newCard.defaultOutputModes)]
  let fieldsArrays :=
    (arrayPairs.filter (fun t => arrStringify t.2.1 != arrStringify t.2.2)).map
      (fun t => FieldDiff.mk t.1 (.arr t.2.1) (.arr t.2.2))
  let fields := fieldsScalar ++ fieldsProvider ++ fieldsArrays
  let oldIds := skillIds oldCard.skills
  let newIds := skillIds newCard.skills
  let skillsAdded := newIds.filter (fun id => !(oldIds.contains id))
  let skillsRemoved := oldIds.filter (fun id => !(newIds.contains id))
  let skillsModified := newIds.filter (fun id =>
    match mapGetSkill oldCard.skills id, mapGetSkill newCard.skills id with
    | some os, some ns => !(skillsEqual os ns)
    | _, _ => false)
  let changed := !fields.isEmpty || !skillsAdded.isEmpty ||
    !skillsRemoved.isEmpty || !skillsModified.isEmpty
  ⟨changed, fields, skillsAdded, skillsRemoved, skillsModified⟩

-- ---------------------------------------------------------------------------
-- src/index.ts — repository state and the commit / checkout / log operations
-- ---------------------------------------------------------------------------

/-- Error taxonomy of the operations modelled here. -/
inductive NitErr where
  | notFound (hash : Str)
  | corruptCommit (msg : Str)
  | noChanges
  | uncommittedChanges
  | branchNotFound (name : Str)
deriving DecidableEq

/-- Observable filesystem mutations, recorded in order of occurrence. -/
inductive Ev where
  | writeCardFile (card : AgentCard)
  | writeObj (hash : Str) (content : Str)
  | setBranchRef (name : Str) (hash : Str)
  | setHeadRef (name : Str)
deriving DecidableEq

/-- State of one local repository: the object partition, the branch refs,
the branch HEAD points at, the working `agent-card.json` (kept in parsed
form — the file always holds `JSON.stringify` of a card, and parsing is its
inverse), and the trace of filesystem mutations performed so far. -/
structure RepoState where
  objects : Store
  refs : List (Str × Str)
  head : Str
  workingCard : AgentCard
  trace : List Ev
deriving DecidableEq

/-- Embedding of `readObject` against the repository state. -/
def readObjectR (s : RepoState) (hash : Str) : Option Str :=
  lookupA s.objects hash

/-- Embedding of `writeObject` against the repository state; appends a trace
event only when the object was actually written. -/
def writeObjectR (s : RepoState) (type : ObjKind) (content : Str) : Str × RepoState :=
  let hex := hashObject type content
  match lookupA s.objects hex with
  | some _ => (hex, s)
  | none =>
    (hex, { s with objects := (hex, content) :: s.objects,
                   trace := s.trace ++ [.writeObj hex content] })

/-- Embedding of `writeWorkingCard`: overwrite `agent-card.json`. -/
def writeWorkingCardR (s : RepoState) (c : AgentCard) : RepoState :=
  { s with workingCard := c, trace := s.trace ++ [.writeCardFile c] }

/-- Embedding of `getBranch`: `none` when the ref file does not exist. -/
def getBranchR (s : RepoState) (branch : Str) : Option Str :=
  lookupA s.refs branch

/-- Embedding of `setBranch`: create or overwrite a branch ref. -/
def setBranchR (s : RepoState) (branch hash : Str) : RepoState :=
  { s with refs := (branch, hash) :: s.refs,
           trace := s.trace ++ [.setBranchRef branch hash] }

/-- Embedding of `setHead`: repoint the symbolic HEAD. -/
def setHeadR (s : RepoState) (branch : Str) : RepoState :=
  { s with head := branch, trace := s.trace ++ [.setHeadRef branch] }

/-- The commit record returned by `commit` (the source stamps the returned
record with a second wall-clock read; the same `now` is used here for both
the serialized and the returned timestamp). -/
structure NitCommitRec where
  hash : Str
  card : Str
  parent : Option Str
  author : Str
  timestamp : Nat
  message : Str
deriving DecidableEq

/-- Embedding of `getAuthorName`: the working card's name, with the project
directory name as fallback when the name is empty (JS falsiness). -/
def authorName (dirName : Str) (c : AgentCard) : Str :=
  if c.name = [] then dirName else c.name

/-- Embedding of `getCardAtCommit`: read the commit object, parse it, read
the referenced card object, and JSON-parse it; any failure is `none`.
`parseCard` abstracts the platform `JSON.parse` on card payloads. -/
def getCardAtCommitR (parseCard : Str → Option AgentCard) (s : RepoState)
    (commitHash : Str) : Option AgentCard :=
  match readObjectR s commitHash with
  | none => none
  | some raw =>
    match parseCommit commitHash raw with
    | .error _ => none
    | .ok c =>
      match readObjectR s c.card with
      | none => none
      | some cardRaw => parseCard cardRaw

/-- Embedding of `commit(message)`.

`resolve` abstracts `resolveSkillPointers` (a document-to-document function
delegated to the skill-discovery collaborator), `dirName` the project
directory basename used as author fallback, and `now` the wall-clock read.
The state in which a thrown error leaves the repository is returned
alongside the error: the working-card rewrite and the card-object write
performed before the empty-commit guard are not rolled back. -/
def commitOp (resolve : AgentCard → AgentCard) (dirName : Str) (now : Nat)
    (message : Str) (s : RepoState) : Except NitErr NitCommitRec × RepoState :=
  let card := resolve s.workingCard
  let s1 := writeWorkingCardR s card
  let cardJson := serializeCard card
  let r2 := writeObjectR s1 .card cardJson
  let cardHash := r2.1
  let s2 := r2.2
  let currentBranch := s2.head
  let parentHash := getBranchR s2 currentBranch
  let guard : Except NitErr Unit :=
    match parentHash with
    | none => .ok ()
    | some p =>
      if p = [] then .ok ()
      else
        match readObjectR s2 p with
        | none => .error (.notFound p)
        | some raw =>
          match parseCommit p raw with
          | .error e => .error (.corruptCommit e)
          | .ok parentCommit =>
            if parentCommit.card = cardHash then .error .noChanges else .ok ()
  match guard with
  | .error e => (.error e, s2)
  | .ok _ =>
    let author := authorName dirName card
    let commitContent := serializeCommit ⟨cardHash, parentHash, author, now, message⟩
    let r3 := writeObjectR s2 .commit commitContent
    let commitHash := r3.1
    let s3 := r3.2
    let s4 := setBranchR s3 currentBranch commitHash
    (.ok ⟨commitHash, cardHash, parentHash, author, now, message⟩, s4)

/-- Embedding of `checkout(branchName)`.

The uncommitted-changes guard mirrors the source's try/catch: any failure
while resolving HEAD's committed snapshot is swallowed and checkout
proceeds; only a computed `changed` diff aborts. -/
def checkoutOp (parseCard : Str → Option AgentCard) (branchName : Str)
    (s : RepoState) : Except NitErr Unit × RepoState :=
  let guardChanged : Option Bool :=
    match getBranchR s s.head with
    | none => none
    | some headHash =>
      match getCardAtCommitR parseCard s headHash with
      | none => none
      | some headCard => some (diffCards headCard s.workingCard).changed
  match guardChanged with
  | some true => (.error .uncommittedChanges, s)
  | _ =>
    match getBranchR s branchName with
    | none => (.error (.branchNotFound branchName), s)
    | some targetHash =>
      match getCardAtCommitR parseCard s targetHash with
      | none => (.error (.notFound targetHash), s)
      | some targetCard =>
        let s1 := writeWorkingCardR s targetCard
        (.ok (), setHeadR s1 branchName)

/-- The while loop of `log()`: walk parent links while the hash is truthy
and fewer than `fuel` entries were collected; a missing object or a
malformed commit propagates as an error, exactly as the uncaught throw of
`readObject`/`parseCommit` does in the source. -/
def logWalk (s : RepoState) : Nat → Option Str → Except NitErr (List ParsedCommit)
  | _, none => .ok []
  | fuel, some h =>
    if h = [] then .ok []
    else
      match fuel with
      | 0 => .ok []
      | fuel + 1 =>
        match readObjectR s h with
        | none => .error (.notFound h)
        | some raw =>
          match parseCommit h raw with
          | .error e => .error (.corruptCommit e)
          | .ok c =>
            match logWalk s fuel c.parent with
            | .error e => .error e
            | .ok rest => .ok (c :: rest)

/-- Embedding of `log()`: walk from the current branch tip up to `limit`
entries (the caller default is 50). -/
def logOp (limit : Nat) (s : RepoState) : Except NitErr (List ParsedCommit) :=
  logWalk s limit (getBranchR s s.head)

-- ---------------------------------------------------------------------------
-- Claim C1 — hashObject format
-- ---------------------------------------------------------------------------

/-- C1: for every kind `k` in card/commit and every string content `c`,
`hashObject(k, c)` equals the lowercase hex encoding of the SHA-256 digest of
the byte string `"{kind} {byteLength}\x00{content}"`, where the length is the
UTF-8 byte length of the content.  Determinism is immediate: `hashObject` is
a plain function of its two arguments, so identical inputs yield the
identical digest. -/
theorem C1_hashObject_format (k : ObjKind) (c : Str) :
    hashObject k c =
      hexOfBytes (sha256 (utf8 (kindStr k ++ [' '] ++ toDecimal (utf8 c).length ++ [nulChar] ++ c))) := by
  simp [hashObject, utf8_append, utf8]

-- ---------------------------------------------------------------------------
-- Claim C2 — canonical signed message of write requests
-- ---------------------------------------------------------------------------

/-- C2: the client-constructed canonical signed message is exactly
`METHOD \n PATH \n AGENT_ID \n TIMESTAMP` when no body is present, and that
string followed by a newline and the lowercase hex SHA-256 digest of the
body when a body is present. -/
theorem C2_canonical_signed_message (m p a t : Str) :
    canonicalMessage m p a t none = m ++ [nlChar] ++ p ++ [nlChar] ++ a ++ [nlChar] ++ t ∧
    (∀ b, canonicalMessage m p a t (some b) =
      m ++ [nlChar] ++ p ++ [nlChar] ++ a ++ [nlChar] ++ t ++ [nlChar] ++
        hexOfBytes (sha256 (utf8 b))) := by
  refine ⟨?_, fun b => ?_⟩ <;> simp [canonicalMessage, sha256Hex]

-- ---------------------------------------------------------------------------
-- Claim C3 — deterministic UUIDv5 agent id derivation
-- ---------------------------------------------------------------------------

theorem sha1_length (m : List Nat) : (sha1 m).length = 20 := by
  simp [sha1, word32be]

theorem length16_destruct (l : List Nat) (h : l.length = 16) :
    ∃ b0 b1 b2 b3 b4 b5 b6 b7 b8 b9 b10 b11 b12 b13 b14 b15,
      l = [b0, b1, b2, b3, b4, b5, b6, b7, b8, b9, b10, b11, b12, b13, b14, b15] := by
  obtain ⟨b0, l, rfl⟩ := List.exists_of_length_succ l h
  simp only [List.length_cons, Nat.succ_inj] at h
  obtain ⟨b1, l, rfl⟩ := List.exists_of_length_succ l h
  simp only [List.length_cons, Nat.succ_inj] at h
  obtain ⟨b2, l, rfl⟩ := List.exists_of_length_succ l h
  simp only [List.length_cons, Nat.succ_inj] at h
  obtain ⟨b3, l, rfl⟩ := List.exists_of_length_succ l h
  simp only [List.length_cons, Nat.succ_inj] at h
  obtain ⟨b4, l, rfl⟩ := List.exists_of_length_succ l h
  simp only [List.length_cons, Nat.succ_inj] at h
  obtain ⟨b5, l, rfl⟩ := List.exists_of_length_succ l h
  simp only [List.length_cons, Nat.succ_inj] at h
  obtain ⟨b6, l, rfl⟩ := List.exists_of_length_succ l h
  simp only [List.length_cons, Nat.succ_inj] at h
  obtain ⟨b7, l, rfl⟩ := List.exists_of_length_succ l h
  simp only [List.length_cons, Nat.succ_inj] at h
  obtain ⟨b8, l, rfl⟩ := List.exists_of_length_succ l h
  simp only [List.length_cons, Nat.succ_inj] at h
  obtain ⟨b9, l, rfl⟩ := List.exists_of_length_succ l h
  simp only [List.length_cons, Nat.succ_inj] at h
  obtain ⟨b10, l, rfl⟩ := List.exists_of_length_succ l h
  simp only [List.length_cons, Nat.succ_inj] at h
  obtain ⟨b11, l, rfl⟩ := List.exists_of_length_succ l h
  simp only [List.length_cons, Nat.succ_inj] at h
  obtain ⟨b12, l, rfl⟩ := List.exists_of_length_succ l h
  simp only [List.length_cons, Nat.succ_inj] at h
  obtain ⟨b13, l, rfl⟩ := List.exists_of_length_succ l h
  simp only [List.length_cons, Nat.succ_inj] at h
  obtain ⟨b14, l, rfl⟩ := List.exists_of_length_succ l h
  simp only [List.length_cons, Nat.succ_inj] at h
  obtain ⟨b15, l, rfl⟩ := List.exists_of_length_succ l h
  simp only [List.length_cons, Nat.succ_inj] at h
  rw [List.length_eq_zero] at h
  subst h
  exact ⟨b0, b1, b2, b3, b4, b5, b6, b7, b8, b9, b10, b11, b12, b13, b14, b15, rfl⟩

theorem versionNibble_div (b : Nat) : ((b &&& 15) ||| 80) / 16 = 5 := by
  have h : b &&& 15 ≤ 15 := Nat.and_le_right
  revert h
  generalize b &&& 15 = y
  intro h
  interval_cases y <;> rfl

theorem variantNibble_div (b : Nat) :
    ((b &&& 63) ||| 128) / 16 = 8 ∨ ((b &&& 63) ||| 128) / 16 = 9 ∨
    ((b &&& 63) ||| 128) / 16 = 10 ∨ ((b &&& 63) ||| 128) / 16 = 11 := by
  have h : b &&& 63 ≤ 63 := Nat.and_le_right
  revert h
  generalize b &&& 63 = y
  intro h
  interval_cases y <;> decide

/-- C3: `deriveAgentId` is a plain function (identical input yields the
identical UUID, by reflexivity of function application), it hashes the fixed
namespace constant concatenated with the public-key field under the
name-based SHA-1 UUIDv5 scheme, and every output carries the version
nibble 5 (character 14 of the hyphenated form) and the RFC 4122 variant
bits (character 19 is one of 8, 9, a, b). -/
theorem C3_deriveAgentId_uuidv5 (pk : Str) :
    deriveAgentId pk =
      (let hash := sha1 (parseUuid NIT_NAMESPACE ++ utf8 pk)
       let uuid := hash.take 16
       let uuid := uuid.set 6 ((uuid.getD 6 0 &&& 15) ||| 80)
       let uuid := uuid.set 8 ((uuid.getD 8 0 &&& 63) ||| 128)
       formatUuid uuid) ∧
    (deriveAgentId pk).length = 36 ∧
    (deriveAgentId pk)[14]? = some '5' ∧
    ((deriveAgentId pk)[19]? = some '8' ∨ (deriveAgentId pk)[19]? = some '9' ∨
     (deriveAgentId pk)[19]? = some 'a' ∨ (deriveAgentId pk)[19]? = some 'b') := by
  refine ⟨rfl, ?_⟩
  unfold deriveAgentId uuidv5
  dsimp only
  have h16 : ((sha1 (parseUuid NIT_NAMESPACE ++ utf8 pk)).take 16).length = 16 := by
    simp [sha1_length]
  obtain ⟨b0, b1, b2, b3, b4, b5, b6, b7, b8, b9, b10, b11, b12, b13, b14, b15, heq⟩ :=
    length16_destruct _ h16
  rw [heq]
  simp only [List.getD, List.get?_cons_zero, List.get?_cons_succ, List.set,
    Option.getD_some]
  simp only [formatUuid, hexOfBytes, List.take_succ_cons, List.take_zero,
    List.drop_succ_cons, List.drop_nil, List.drop_zero]
  simp only [List.cons_append, List.nil_append]
  refine ⟨by simp, ?_, ?_⟩
  · simp only [List.getElem?_cons_succ, List.getElem?_cons_zero]
    rw [versionNibble_div b6]
    rfl
  · simp only [List.getElem?_cons_succ, List.getElem?_cons_zero]
    rcases variantNibble_div b8 with h | h | h | h <;> rw [h] <;> simp [hexDigitCh]

-- ---------------------------------------------------------------------------
-- Claim C6 — idempotent object writes
-- ---------------------------------------------------------------------------

/-- C6: writing the same (kind, content) twice never errors (the operation
is total), returns the same digest from both calls, and the second call
leaves the store — hence the stored bytes — entirely unchanged. -/
theorem C6_writeObject_idempotent (store : Store) (k : ObjKind) (c : Str) :
    (writeObjectS (writeObjectS store k c).2 k c).1 = (writeObjectS store k c).1 ∧
    (writeObjectS (writeObjectS store k c).2 k c).2 = (writeObjectS store k c).2 := by
  unfold writeObjectS
  cases h : lookupA store (hashObject k c) with
  | some v => simp [h]
  | none => simp [h, lookupA]

-- ---------------------------------------------------------------------------
-- Claim C8 — provider comparison in diffCards
-- ---------------------------------------------------------------------------

theorem contains_of_mem {l : List Str} {a : Str} (h : a ∈ l) : l.contains a = true := by
  exact List.elem_eq_true_of_mem h

theorem filter_not_contains_self (ids : List Str) :
    ids.filter (fun id => !(ids.contains id)) = [] := by
  rw [List.filter_eq_nil_iff]
  intro a ha
  rw [contains_of_mem ha]
  decide

theorem filter_modified_self (sk : List Skill) :
    (skillIds sk).filter (fun id =>
      match mapGetSkill sk id, mapGetSkill sk id with
      | some os, some ns => !(skillsEqual os ns)
      | _, _ => false) = [] := by
  rw [List.filter_eq_nil_iff]
  intro a ha
  cases h : mapGetSkill sk a <;> simp [h, skillsEqual]

/-- An agent card with every field empty, used as a base for concrete
states. -/
def emptyCard : AgentCard := ⟨[], [], [], [], [], none, [], [], [], none, none, none⟩

/-- Provider object with keys in organization-then-url insertion order. -/
def provOrgUrl : Provider := [(jstr ("organization"), jstr ("acme")), (jstr ("url"), jstr ("x"))]

/-- The same key/value pairs with the insertion order swapped. -/
def provUrlOrg : Provider := [(jstr ("url"), jstr ("x")), (jstr ("organization"), jstr ("acme"))]

/-- C8 counterexample: two cards identical except for the order of keys
inside the nested provider object are reported as CHANGED, with one change
entry for the provider field — `JSON.stringify` preserves the insertion
order of object keys, so reordering is visible to the comparison, contrary
to the claim that no change is reported. -/
theorem C8_counterexample_key_order :
    diffCards { emptyCard with provider := some provOrgUrl }
        { emptyCard with provider := some provUrlOrg } =
      ⟨true, [⟨jstr ("provider"), JsVal.obj (some provOrgUrl), JsVal.obj (some provUrlOrg)⟩],
        [], [], []⟩ := by
  decide

/-- C8 (amended): for two cards identical except for the provider field,
`diffCards` compares the provider by equality of its JSON serialization —
which preserves key insertion order, so mere reordering of keys does count
as a change — and emits exactly one change entry for the provider field
when the serializations differ, and none when they coincide. -/
theorem C8_provider_serialization_diff (b : AgentCard) (p : Option Provider) :
    (diffCards { b with provider := p } b).fields =
      (if providerStringify p = providerStringify b.provider then []
       else [⟨jstr ("provider"), JsVal.obj p, JsVal.obj b.provider⟩]) ∧
    (diffCards { b with provider := p } b).skillsAdded = [] ∧
    (diffCards { b with provider := p } b).skillsRemoved = [] ∧
    (diffCards { b with provider := p } b).skillsModified = [] ∧
    ((diffCards { b with provider := p } b).changed = true ↔
      providerStringify p ≠ providerStringify b.provider) := by
  by_cases hpp : providerStringify p = providerStringify b.provider <;>
    simp [diffCards, hpp, filter_not_contains_self, filter_modified_self]

-- ---------------------------------------------------------------------------
-- Claim C7 — log on a broken parent chain
-- ---------------------------------------------------------------------------

/-- Serialized tip commit whose parent digest is dangling. -/
def brokenTipRaw : Str :=
  serializeCommit ⟨jstr ("cc"), some (jstr ("dd")), jstr ("al"), 1, jstr ("m")⟩

/-- A concrete state whose single branch tip names a parent object that is
missing from the store. -/
def brokenState : RepoState :=
  { objects := [(jstr ("aa"), brokenTipRaw)],
    refs := [(jstr ("main"), jstr ("aa"))],
    head := jstr ("main"),
    workingCard := emptyCard,
    trace := [] }

/-- C7 counterexample: on a branch whose tip commit's parent digest names a
missing object, `log()` FAILS with the propagated Object-not-found error —
it does not stop early with the entries read so far (the defensive
truncation exists in `status()`, but `log()` has no such guard). -/
theorem C7_counterexample_log_fails :
    logOp 50 brokenState = .error (.notFound (jstr ("dd"))) := by
  decide

/-- A parent chain from `h` that reaches, after `k` successful reads, a
truthy digest whose object is missing from the store. -/
inductive BrokenChain (s : RepoState) : Str → Nat → Prop where
  | here (h : Str) : h ≠ [] → readObjectR s h = none → BrokenChain s h 0
  | step (h raw p : Str) (c : ParsedCommit) (k : Nat) :
      h ≠ [] → readObjectR s h = some raw → parseCommit h raw = .ok c →
      c.parent = some p → BrokenChain s p k → BrokenChain s h (k + 1)

theorem logWalk_broken {s : RepoState} {h : Str} {k : Nat} (hb : BrokenChain s h k) :
    ∀ fuel, k < fuel → ∃ bad, logWalk s fuel (some h) = .error (.notFound bad) := by
  induction hb with
  | here h hne hro =>
    intro fuel hk
    match fuel, hk with
    | f + 1, _ => exact ⟨h, by simp [logWalk, hne, hro]⟩
  | step h raw p c k hne hro hpc hp hbr ih =>
    intro fuel hk
    match fuel, hk with
    | f + 1, hk =>
      obtain ⟨bad, hbad⟩ := ih f (by omega)
      refine ⟨bad, ?_⟩
      rw [← hp] at hbad
      simp [logWalk, hne, hro, hpc, hbad]

/-- C7 (amended): when the parent chain from the current branch tip is
broken within the entry cap, `log()` fails with the propagated
Object-not-found error instead of returning the entries read so far. -/
theorem C7_log_error_on_broken_chain (s : RepoState) (h : Str) (k limit : Nat)
    (htip : getBranchR s s.head = some h) (hb : BrokenChain s h k) (hk : k < limit) :
    ∃ bad, logOp limit s = .error (.notFound bad) := by
  unfold logOp
  rw [htip]
  exact logWalk_broken hb limit hk

/-- C7 witness: the amended theorem applied to the concrete broken state. -/
theorem C7_log_error_on_broken_chain_witness :
    getBranchR brokenState brokenState.head = some (jstr ("aa")) ∧ 1 < 50 ∧
    ∃ bad, logOp 50 brokenState = .error (.notFound bad) := by
  refine ⟨by decide, by decide, ?_⟩
  refine C7_log_error_on_broken_chain brokenState (jstr ("aa")) 1 50 (by decide) ?_ (by decide)
  refine BrokenChain.step (jstr ("aa")) brokenTipRaw (jstr ("dd"))
    ⟨jstr ("aa"), jstr ("cc"), some (jstr ("dd")), jstr ("al"), some 1, jstr ("m")⟩ 0
    (by decide) (by decide) (by decide) (by decide) ?_
  exact BrokenChain.here (jstr ("dd")) (by decide) (by decide)

-- ---------------------------------------------------------------------------
-- Claim C9 — commit record round-trip
-- ---------------------------------------------------------------------------

theorem splitOnNl_ne_nil (s : Str) : splitOnNl s ≠ [] := by
  cases s with
  | nil => simp [splitOnNl]
  | cons c rest =>
    by_cases h : c = nlChar
    · simp [splitOnNl, h]
    · simp only [splitOnNl, if_neg h]
      cases splitOnNl rest <;> simp

theorem splitOnNl_append (a b : Str) (ha : nlChar ∉ a) :
    splitOnNl (a ++ nlChar :: b) = a :: splitOnNl b := by
  induction a with
  | nil => simp [splitOnNl]
  | cons c rest ih =>
    have hc : c ≠ nlChar := fun hc => ha (hc ▸ List.mem_cons_self c rest)
    have hrest : nlChar ∉ rest := fun hm => ha (List.mem_cons_of_mem c hm)
    simp only [List.cons_append, splitOnNl, if_neg hc]
    rw [show List.append rest (nlChar :: b) = rest ++ nlChar :: b from rfl, ih hrest]

theorem joinNl_splitOnNl (m : Str) : joinNl (splitOnNl m) = m := by
  induction m with
  | nil => simp [splitOnNl, joinNl]
  | cons c rest ih =>
    by_cases h : c = nlChar
    · subst h
      simp only [splitOnNl, if_pos rfl]
      obtain ⟨x, t, hxt⟩ : ∃ x t, splitOnNl rest = x :: t := by
        cases hs : splitOnNl rest with
        | nil => exact absurd hs (splitOnNl_ne_nil rest)
        | cons x t => exact ⟨x, t, rfl⟩
      rw [hxt]
      rw [hxt] at ih
      simp [joinNl, ← ih]
    · simp only [splitOnNl, if_neg h]
      cases hs : splitOnNl rest with
      | nil => exact absurd hs (splitOnNl_ne_nil rest)
      | cons x t =>
        rw [hs] at ih
        cases t with
        | nil => simpa [joinNl] using congrArg (fun l => c :: l) ih
        | cons y t2 => simpa [joinNl] using congrArg (fun l => c :: l) ih

theorem lastIdxOf_of_not_mem (ch : Char) (l : Str) (h : ch ∉ l) : lastIdxOf ch l = none := by
  induction l with
  | nil => simp [lastIdxOf]
  | cons c rest ih =>
    have hc : c ≠ ch := fun hc => h (hc ▸ List.mem_cons_self c rest)
    have hrest : ch ∉ rest := fun hm => h (List.mem_cons_of_mem c hm)
    simp [lastIdxOf, ih hrest, hc]

theorem lastIdxOf_append_sep (a d : Str) (hd : ' ' ∉ d) :
    lastIdxOf ' ' (a ++ ' ' :: d) = some a.length := by
  induction a with
  | nil => simp [lastIdxOf, lastIdxOf_of_not_mem ' ' d hd]
  | cons c rest ih => simp [lastIdxOf, ih]

theorem isDigitCh_digitCh (d : Nat) (h : d < 10) : isDigitCh (digitCh d) = true := by
  interval_cases d <;> decide

theorem digitVal_digitCh (d : Nat) (h : d < 10) : digitVal (digitCh d) = d := by
  interval_cases d <;> decide

theorem toDecimalF_all_digits : ∀ fuel n, ∀ c ∈ toDecimalF fuel n, isDigitCh c = true := by
  intro fuel
  induction fuel with
  | zero => intro n c hc; simp [toDecimalF] at hc
  | succ f ih =>
    intro n c hc
    by_cases hn : n < 10
    · simp only [toDecimalF, if_pos hn, List.mem_singleton] at hc
      exact hc ▸ isDigitCh_digitCh n hn
    · simp only [toDecimalF, if_neg hn, List.mem_append, List.mem_singleton] at hc
      rcases hc with hc | hc
      · exact ih (n / 10) c hc
      · exact hc ▸ isDigitCh_digitCh (n % 10) (Nat.mod_lt n (by omega))

theorem toDecimal_all_digits (n : Nat) : ∀ c ∈ toDecimal n, isDigitCh c = true :=
  toDecimalF_all_digits (n + 1) n

theorem not_space_mem_toDecimal (n : Nat) : ' ' ∉ toDecimal n := by
  intro h
  have := toDecimal_all_digits n ' ' h
  exact absurd this (by decide)

theorem not_nl_mem_toDecimal (n : Nat) : nlChar ∉ toDecimal n := by
  intro h
  have := toDecimal_all_digits n nlChar h
  exact absurd this (by decide)

theorem toDecimal_ne_nil (n : Nat) : toDecimal n ≠ [] := by
  unfold toDecimal toDecimalF
  by_cases h : n < 10 <;> simp [h]

theorem foldl_toDecimalF : ∀ fuel n acc, n < fuel →
    (toDecimalF fuel n).foldl (fun a c => a * 10 + digitVal c) acc =
      acc * 10 ^ (toDecimalF fuel n).length + n := by
  intro fuel
  induction fuel with
  | zero => intro n acc hn; omega
  | succ f ih =>
    intro n acc hn
    by_cases h10 : n < 10
    · simp [toDecimalF, h10, digitVal_digitCh n h10]
    · have hdiv : n / 10 < f := by
        have h1 : n / 10 < n := Nat.div_lt_self (by omega) (by omega)
        omega
      simp only [toDecimalF, if_neg h10, List.foldl_append, List.foldl_cons, List.foldl_nil,
        List.length_append, List.length_cons, List.length_nil]
      rw [ih (n / 10) acc hdiv, digitVal_digitCh (n % 10) (Nat.mod_lt n (by omega))]
      rw [Nat.add_mul, pow_succ, ← Nat.mul_assoc]
      omega

theorem parseIntJS_toDecimal (n : Nat) : parseIntJS (toDecimal n) = some n := by
  unfold parseIntJS
  dsimp only
  rw [List.takeWhile_eq_self_iff.mpr (toDecimal_all_digits n)]
  have hne : (toDecimal n).isEmpty = false := by
    cases h : toDecimal n with
    | nil => exact absurd h (toDecimal_ne_nil n)
    | cons x t => rfl
  rw [hne]
  simp only [Bool.false_eq_true, if_false]
  rw [show (toDecimal n).foldl (fun a c => a * 10 + digitVal c) 0 =
    0 * 10 ^ (toDecimal n).length + n from foldl_toDecimalF (n + 1) n 0 (Nat.lt_succ_self n)]
  simp

theorem isPrefixOf_append_self (p r : Str) : p.isPrefixOf (p ++ r) = true := by
  induction p with
  | nil => simp [List.isPrefixOf]
  | cons c rest ih => simp [List.isPrefixOf, ih]

theorem card_pfx_author (x : Str) :
    (jstr ("card ")).isPrefixOf (jstr ("author ") ++ x) = false := rfl

theorem parent_pfx_author (x : Str) :
    (jstr ("parent ")).isPrefixOf (jstr ("author ") ++ x) = false := rfl

theorem card_pfx_parent (x : Str) :
    (jstr ("card ")).isPrefixOf (jstr ("parent ") ++ x) = false := rfl

theorem drop_len_append (a r : Str) : (a ++ r).drop a.length = r := List.drop_left a r

theorem drop5_card (x : Str) : (jstr ("card ") ++ x).drop 5 = x :=
  drop_len_append (jstr ("card ")) x

theorem drop7_author (x : Str) : (jstr ("author ") ++ x).drop 7 = x :=
  drop_len_append (jstr ("author ")) x

theorem drop7_parent (x : Str) : (jstr ("parent ") ++ x).drop 7 = x :=
  drop_len_append (jstr ("parent ")) x

theorem take_len_append (a r : Str) : (a ++ r).take a.length = a := List.take_left a r

theorem drop_len_succ_append (a r : Str) (x : Char) :
    (a ++ x :: r).drop (a.length + 1) = r := by
  rw [show a ++ x :: r = (a ++ [x]) ++ r by simp]
  rw [show a.length + 1 = (a ++ [x]).length by simp]
  exact List.drop_left _ _

theorem append_ne_nil_left (a r : Str) (h : a ≠ []) : a ++ r ≠ [] := by
  cases a with
  | nil => exact absurd rfl h
  | cons c t => simp

/-- Round-trip core: parsing the serialization of a commit record recovers
every field, provided the card digest is nonempty and the card, parent and
author fields contain no newline. -/
theorem parseCommit_serializeCommit (h : Str) (c : CommitData) (hcard : c.card ≠ [])
    (hnlc : nlChar ∉ c.card) (hnlp : ∀ p, c.parent = some p → nlChar ∉ p)
    (hnla : nlChar ∉ c.author) :
    parseCommit h (serializeCommit c) =
      .ok ⟨h, c.card, c.parent, c.author, some c.timestamp, c.message⟩ := by
  have hnl_card_line : nlChar ∉ jstr ("card ") ++ c.card := by
    intro hm
    rcases List.mem_append.mp hm with hm | hm
    · exact absurd hm (by decide)
    · exact hnlc hm
  have hnl_author_line :
      nlChar ∉ jstr ("author ") ++ (c.author ++ ' ' :: toDecimal c.timestamp) := by
    intro hm
    rcases List.mem_append.mp hm with hm | hm
    · exact absurd hm (by decide)
    · rcases List.mem_append.mp hm with hm | hm
      · exact hnla hm
      · rcases List.mem_cons.mp hm with hm | hm
        · exact absurd hm (by decide)
        · exact absurd hm (not_nl_mem_toDecimal c.timestamp)
  have hcard_line_ne : jstr ("card ") ++ c.card ≠ [] :=
    append_ne_nil_left _ _ (by decide)
  have hauthor_line_ne : jstr ("author ") ++ (c.author ++ ' ' :: toDecimal c.timestamp) ≠ [] :=
    append_ne_nil_left _ _ (by decide)
  have hlast : lastIdxOf ' ' (c.author ++ ' ' :: toDecimal c.timestamp) =
      some c.author.length :=
    lastIdxOf_append_sep _ _ (not_space_mem_toDecimal c.timestamp)
  cases hpar : c.parent with
  | none =>
    have hjoin : serializeCommit c =
        (jstr ("card ") ++ c.card) ++ nlChar ::
          ((jstr ("author ") ++ (c.author ++ ' ' :: toDecimal c.timestamp)) ++ nlChar ::
            nlChar :: c.message) := by
      simp [serializeCommit, hpar, joinNl]
    rw [hjoin]
    unfold parseCommit
    rw [splitOnNl_append _ _ hnl_card_line, splitOnNl_append _ _ hnl_author_line]
    rw [show splitOnNl (nlChar :: c.message) = [] :: splitOnNl c.message by
      simp [splitOnNl]]
    simp only [parseLoop, hcard_line_ne, hauthor_line_ne, isPrefixOf_append_self,
      card_pfx_author, parent_pfx_author, drop5_card, drop7_author, hlast,
      take_len_append, drop_len_succ_append, parseIntJS_toDecimal,
      Bool.false_eq_true, if_false, if_true, ite_true, ite_false]
    simp [hcard, joinNl_splitOnNl]
  | some p =>
    have hnl_parent_line : nlChar ∉ jstr ("parent ") ++ p := by
      intro hm
      rcases List.mem_append.mp hm with hm | hm
      · exact absurd hm (by decide)
      · exact hnlp p hpar hm
    have hparent_line_ne : jstr ("parent ") ++ p ≠ [] :=
      append_ne_nil_left _ _ (by decide)
    have hjoin : serializeCommit c =
        (jstr ("card ") ++ c.card) ++ nlChar ::
          ((jstr ("parent ") ++ p) ++ nlChar ::
            ((jstr ("author ") ++ (c.author ++ ' ' :: toDecimal c.timestamp)) ++ nlChar ::
              nlChar :: c.message)) := by
      simp [serializeCommit, hpar, joinNl]
    rw [hjoin]
    unfold parseCommit
    rw [splitOnNl_append _ _ hnl_card_line, splitOnNl_append _ _ hnl_parent_line,
      splitOnNl_append _ _ hnl_author_line]
    rw [show splitOnNl (nlChar :: c.message) = [] :: splitOnNl c.message by
      simp [splitOnNl]]
    simp only [parseLoop, hcard_line_ne, hparent_line_ne, hauthor_line_ne,
      isPrefixOf_append_self, card_pfx_author, parent_pfx_author, card_pfx_parent,
      drop5_card, drop7_author, drop7_parent, hlast,
      take_len_append, drop_len_succ_append, parseIntJS_toDecimal,
      Bool.false_eq_true, if_false, if_true, ite_true, ite_false]
    simp [hcard, joinNl_splitOnNl]

/-- A commit record whose author contains a newline character. -/
def newlineAuthorCommit : CommitData :=
  ⟨jstr ("ab"), none, 'a' :: nlChar :: ['b'], 5, jstr ("m")⟩

/-- C9 counterexample: a commit record whose author contains a newline does
NOT round-trip — the serialized author line is split in two, the parser
re-reads an empty author (and a `NaN` timestamp), and the second half of the
author is dropped as an unrecognized header line. -/
theorem C9_counterexample_newline_author :
    parseCommit (jstr ("h1x")) (serializeCommit newlineAuthorCommit) =
      .ok ⟨jstr ("h1x"), jstr ("ab"), none, [], none, jstr ("m")⟩ ∧
    newlineAuthorCommit.author ≠ [] := by
  decide

/-- C9 (amended): for every commit record whose card digest is nonempty and
whose card, parent (when present) and author contain no newline character,
`parseCommit(h, serializeCommit(x))` returns a commit whose card, parent,
author, timestamp and message equal those of `x` (the timestamp coming back
as a successfully parsed number). -/
theorem C9_commit_roundtrip (hsh : Str) (x : CommitData) (hcard : x.card ≠ [])
    (hnlc : nlChar ∉ x.card) (hnlp : ∀ p, x.parent = some p → nlChar ∉ p)
    (hnla : nlChar ∉ x.author) :
    parseCommit hsh (serializeCommit x) =
      .ok ⟨hsh, x.card, x.parent, x.author, some x.timestamp, x.message⟩ :=
  parseCommit_serializeCommit hsh x hcard hnlc hnlp hnla

/-- A well-formed commit record with a multi-word author, a parent and a
multi-line message. -/
def niceCommit : CommitData :=
  ⟨jstr ("abc123"), some (jstr ("def456")), jstr ("Emil X"), 1709123456, jstr ("two\nlines")⟩

/-- C9 witness: the amended round-trip at a concrete record. -/
theorem C9_commit_roundtrip_witness :
    niceCommit.card ≠ [] ∧
    parseCommit (jstr ("h9")) (serializeCommit niceCommit) =
      .ok ⟨jstr ("h9"), niceCommit.card, niceCommit.parent, niceCommit.author,
        some niceCommit.timestamp, niceCommit.message⟩ := by
  refine ⟨by decide, ?_⟩
  refine C9_commit_roundtrip (jstr ("h9")) niceCommit (by decide) (by decide) ?_ (by decide)
  intro p hp
  have hp2 : p = jstr ("def456") := by
    have : some (jstr ("def456")) = some p := hp
    exact (Option.some.inj this).symm
  rw [hp2]
  decide

-- ---------------------------------------------------------------------------
-- State-step lemmas for commit / checkout
-- ---------------------------------------------------------------------------

theorem writeObjectR_fst (s : RepoState) (t : ObjKind) (c : Str) :
    (writeObjectR s t c).1 = hashObject t c := by
  unfold writeObjectR
  cases h : lookupA s.objects (hashObject t c) <;> simp [h]

theorem writeObjectR_refs (s : RepoState) (t : ObjKind) (c : Str) :
    (writeObjectR s t c).2.refs = s.refs := by
  unfold writeObjectR
  cases h : lookupA s.objects (hashObject t c) <;> simp [h]

theorem writeObjectR_head (s : RepoState) (t : ObjKind) (c : Str) :
    (writeObjectR s t c).2.head = s.head := by
  unfold writeObjectR
  cases h : lookupA s.objects (hashObject t c) <;> simp [h]

theorem writeObjectR_workingCard (s : RepoState) (t : ObjKind) (c : Str) :
    (writeObjectR s t c).2.workingCard = s.workingCard := by
  unfold writeObjectR
  cases h : lookupA s.objects (hashObject t c) <;> simp [h]

theorem writeObjectR_trace_ext (s : RepoState) (t : ObjKind) (c : Str) :
    ∃ es, (writeObjectR s t c).2.trace = s.trace ++ es := by
  unfold writeObjectR
  cases h : lookupA s.objects (hashObject t c) with
  | some v => exact ⟨[], by simp [h]⟩
  | none => exact ⟨[.writeObj (hashObject t c) c], by simp [h]⟩

theorem writeObjectR_read_ne (s : RepoState) (t : ObjKind) (c : Str) (k : Str)
    (hk : k ≠ hashObject t c) :
    readObjectR (writeObjectR s t c).2 k = readObjectR s k := by
  unfold writeObjectR readObjectR
  cases h : lookupA s.objects (hashObject t c) with
  | some v => simp [h]
  | none => simp [h, lookupA, Ne.symm hk]

theorem writeObjectR_read_self (s : RepoState) (t : ObjKind) (c : Str)
    (hfresh : readObjectR s (hashObject t c) = none) :
    readObjectR (writeObjectR s t c).2 (hashObject t c) = some c := by
  unfold readObjectR at hfresh
  unfold writeObjectR readObjectR
  simp [hfresh, lookupA]

/-- Evaluation of `commitOp` in the no-changes case: under a truthy,
readable, parsable branch tip whose card digest coincides with the digest of
the re-serialized working card, the commit fails with the empty-commit
guard, leaving behind the state after the working-card rewrite and the card
object write. -/
theorem commitOp_noChanges (resolve : AgentCard → AgentCard) (dirName : Str) (now : Nat)
    (message : Str) (s : RepoState) (p raw : Str) (tip : ParsedCommit)
    (hp : getBranchR s s.head = some p)
    (hpne : p ≠ [])
    (hpcard : p ≠ hashObject .card (serializeCard (resolve s.workingCard)))
    (hro : readObjectR s p = some raw)
    (hpc : parseCommit p raw = .ok tip)
    (hc : tip.card = hashObject .card (serializeCard (resolve s.workingCard))) :
    commitOp resolve dirName now message s =
      (.error .noChanges,
       (writeObjectR (writeWorkingCardR s (resolve s.workingCard)) .card
          (serializeCard (resolve s.workingCard))).2) := by
  have e1 : (writeObjectR (writeWorkingCardR s (resolve s.workingCard)) ObjKind.card
      (serializeCard (resolve s.workingCard))).2.head = s.head := by
    rw [writeObjectR_head]
    rfl
  have e2 : getBranchR (writeObjectR (writeWorkingCardR s (resolve s.workingCard)) ObjKind.card
      (serializeCard (resolve s.workingCard))).2 s.head = some p := by
    unfold getBranchR
    rw [writeObjectR_refs]
    exact hp
  have e3 : readObjectR (writeObjectR (writeWorkingCardR s (resolve s.workingCard)) ObjKind.card
      (serializeCard (resolve s.workingCard))).2 p = some raw := by
    rw [writeObjectR_read_ne _ _ _ _ hpcard]
    exact hro
  simp only [commitOp, e1, e2, e3, writeObjectR_fst, hpc]
  simp [hpne, hc]

/-- Evaluation of `commitOp` in the success case: when the tip card digest
differs from that of the re-serialized working card, a new commit object is
written with the old tip as parent and the branch ref is advanced, as the
last mutation, to the new commit digest. -/
theorem commitOp_success (resolve : AgentCard → AgentCard) (dirName : Str) (now : Nat)
    (message : Str) (s : RepoState) (p raw : Str) (tip : ParsedCommit)
    (hp : getBranchR s s.head = some p)
    (hpne : p ≠ [])
    (hpcard : p ≠ hashObject .card (serializeCard (resolve s.workingCard)))
    (hro : readObjectR s p = some raw)
    (hpc : parseCommit p raw = .ok tip)
    (hc : tip.card ≠ hashObject .card (serializeCard (resolve s.workingCard))) :
    commitOp resolve dirName now message s =
      (.ok ⟨hashObject .commit (serializeCommit
          ⟨hashObject .card (serializeCard (resolve s.workingCard)), some p,
            authorName dirName (resolve s.workingCard), now, message⟩),
        hashObject .card (serializeCard (resolve s.workingCard)), some p,
        authorName dirName (resolve s.workingCard), now, message⟩,
       setBranchR
         (writeObjectR
           (writeObjectR (writeWorkingCardR s (resolve s.workingCard)) .card
             (serializeCard (resolve s.workingCard))).2 .commit
           (serializeCommit
             ⟨hashObject .card (serializeCard (resolve s.workingCard)), some p,
               authorName dirName (resolve s.workingCard), now, message⟩)).2
         s.head
         (hashObject .commit (serializeCommit
           ⟨hashObject .card (serializeCard (resolve s.workingCard)), some p,
             authorName dirName (resolve s.workingCard), now, message⟩))) := by
  have e1 : (writeObjectR (writeWorkingCardR s (resolve s.workingCard)) ObjKind.card
      (serializeCard (resolve s.workingCard))).2.head = s.head := by
    rw [writeObjectR_head]
    rfl
  have e2 : getBranchR (writeObjectR (writeWorkingCardR s (resolve s.workingCard)) ObjKind.card
      (serializeCard (resolve s.workingCard))).2 s.head = some p := by
    unfold getBranchR
    rw [writeObjectR_refs]
    exact hp
  have e3 : readObjectR (writeObjectR (writeWorkingCardR s (resolve s.workingCard)) ObjKind.card
      (serializeCard (resolve s.workingCard))).2 p = some raw := by
    rw [writeObjectR_read_ne _ _ _ _ hpcard]
    exact hro
  simp only [commitOp, e1, e2, e3, writeObjectR_fst, hpc]
  simp [hpne, hc]

/-- C4: under a current branch with a truthy, readable, parsable tip commit
(whose digest is not the freshly computed card digest — distinct SHA-256
inputs), `commit(message)` fails with NoChanges exactly when the resolved
working card's object digest equals the tip commit's card digest; otherwise
it returns a new commit whose parent is the old tip and advances the
current branch ref to the new commit's digest as the final mutation. -/
theorem C4_commit_noChanges_iff (resolve : AgentCard → AgentCard) (dirName : Str) (now : Nat)
    (message : Str) (s : RepoState) (p raw : Str) (tip : ParsedCommit)
    (hp : getBranchR s s.head = some p)
    (hpne : p ≠ [])
    (hpcard : p ≠ hashObject .card (serializeCard (resolve s.workingCard)))
    (hro : readObjectR s p = some raw)
    (hpc : parseCommit p raw = .ok tip) :
    ((commitOp resolve dirName now message s).1 = .error .noChanges ↔
      tip.card = hashObject .card (serializeCard (resolve s.workingCard))) ∧
    (tip.card ≠ hashObject .card (serializeCard (resolve s.workingCard)) →
      ∃ rec s', commitOp resolve dirName now message s = (.ok rec, s') ∧
        rec.parent = some p ∧
        getBranchR s' s.head = some rec.hash ∧
        (∃ es, s'.trace = s.trace ++ es ∧
          es.getLast? = some (.setBranchRef s.head rec.hash))) := by
  constructor
  · by_cases hc : tip.card = hashObject .card (serializeCard (resolve s.workingCard))
    · rw [commitOp_noChanges resolve dirName now message s p raw tip hp hpne hpcard hro hpc hc]
      simp [hc]
    · rw [commitOp_success resolve dirName now message s p raw tip hp hpne hpcard hro hpc hc]
      simp [hc]
  · intro hc
    rw [commitOp_success resolve dirName now message s p raw tip hp hpne hpcard hro hpc hc]
    refine ⟨_, _, rfl, rfl, by simp [getBranchR, setBranchR, lookupA], ?_⟩
    obtain ⟨es2, h2⟩ := writeObjectR_trace_ext (writeWorkingCardR s (resolve s.workingCard))
      .card (serializeCard (resolve s.workingCard))
    obtain ⟨es3, h3⟩ := writeObjectR_trace_ext
      (writeObjectR (writeWorkingCardR s (resolve s.workingCard)) .card
        (serializeCard (resolve s.workingCard))).2 .commit
      (serializeCommit
        ⟨hashObject .card (serializeCard (resolve s.workingCard)), some p,
          authorName dirName (resolve s.workingCard), now, message⟩)
    refine ⟨[Ev.writeCardFile (resolve s.workingCard)] ++ es2 ++ es3 ++
      [Ev.setBranchRef s.head (hashObject .commit (serializeCommit
        ⟨hashObject .card (serializeCard (resolve s.workingCard)), some p,
          authorName dirName (resolve s.workingCard), now, message⟩))],
      ?_, by rw [List.getLast?_concat]⟩
    simp only [setBranchR]
    rw [h3, h2]
    simp [writeWorkingCardR, List.append_assoc]

/-- C10: when `commit(message)` fails with NoChanges, the working
`agent-card.json` has already been rewritten with the skill-resolved,
re-serialized card and the card object has already been written to the
object store before the failure is raised — the error does not leave local
state unchanged (the trace records both writes, in order, and nothing
else). -/
theorem C10_commit_noChanges_side_effects (resolve : AgentCard → AgentCard) (dirName : Str)
    (now : Nat) (message : Str) (s : RepoState) (p raw : Str) (tip : ParsedCommit)
    (hp : getBranchR s s.head = some p)
    (hpne : p ≠ [])
    (hpcard : p ≠ hashObject .card (serializeCard (resolve s.workingCard)))
    (hro : readObjectR s p = some raw)
    (hpc : parseCommit p raw = .ok tip)
    (hc : tip.card = hashObject .card (serializeCard (resolve s.workingCard)))
    (hfresh : readObjectR s (hashObject .card (serializeCard (resolve s.workingCard))) = none) :
    ∃ s', commitOp resolve dirName now message s = (.error .noChanges, s') ∧
      s'.workingCard = resolve s.workingCard ∧
      readObjectR s' (hashObject .card (serializeCard (resolve s.workingCard))) =
        some (serializeCard (resolve s.workingCard)) ∧
      s'.trace = s.trace ++
        [.writeCardFile (resolve s.workingCard),
         .writeObj (hashObject .card (serializeCard (resolve s.workingCard)))
           (serializeCard (resolve s.workingCard))] := by
  rw [commitOp_noChanges resolve dirName now message s p raw tip hp hpne hpcard hro hpc hc]
  refine ⟨_, rfl, ?_, ?_, ?_⟩
  · rw [writeObjectR_workingCard]
    rfl
  · exact writeObjectR_read_self _ _ _ hfresh
  · have hlk : lookupA s.objects
        (hashObject .card (serializeCard (resolve s.workingCard))) = none := hfresh
    unfold writeObjectR
    simp [hlk, writeWorkingCardR]

-- ---------------------------------------------------------------------------
-- Claim C5 — checkout guard and branch switch
-- ---------------------------------------------------------------------------

/-- C5: for a repository whose HEAD snapshot is resolvable and an existing,
resolvable target branch, `checkout(branchName)` fails with
UncommittedChanges exactly when the working card differs (per the diff
engine) from HEAD's committed snapshot; when they are identical it
overwrites the working card with the target branch's tip snapshot and
repoints HEAD at the target branch. -/
theorem C5_checkout_guard (parseCard : Str → Option AgentCard) (branchName : Str)
    (s : RepoState) (hh th : Str) (headCard targetCard : AgentCard)
    (h1 : getBranchR s s.head = some hh)
    (h2 : getCardAtCommitR parseCard s hh = some headCard)
    (h3 : getBranchR s branchName = some th)
    (h4 : getCardAtCommitR parseCard s th = some targetCard) :
    ((checkoutOp parseCard branchName s).1 = .error .uncommittedChanges ↔
      (diffCards headCard s.workingCard).changed = true) ∧
    ((diffCards headCard s.workingCard).changed = false →
      checkoutOp parseCard branchName s =
        (.ok (), setHeadR (writeWorkingCardR s targetCard) branchName) ∧
      (setHeadR (writeWorkingCardR s targetCard) branchName).workingCard = targetCard ∧
      (setHeadR (writeWorkingCardR s targetCard) branchName).head = branchName) := by
  cases hch : (diffCards headCard s.workingCard).changed with
  | true =>
    refine ⟨?_, ?_⟩
    · simp [checkoutOp, h1, h2, h3, h4, hch]
    · intro hfalse
      exact absurd hfalse (by decide)
  | false =>
    refine ⟨?_, fun _ => ⟨?_, rfl, rfl⟩⟩
    · simp [checkoutOp, h1, h2, h3, h4, hch]
    · simp only [checkoutOp, h1, h2, h3, h4, hch]

-- ---------------------------------------------------------------------------
-- Concrete witness states
-- ---------------------------------------------------------------------------

/-- A JSON-parse oracle that recognizes only the empty card. -/
def parseCardConst : Str → Option AgentCard := fun _ => some emptyCard

/-- A repository with one commit on `main`, a second branch `dev` at the
same commit, and a clean working card. -/
def checkoutState : RepoState :=
  { objects := [(jstr ("h1"), serializeCommit ⟨jstr ("c1"), none, jstr ("a"), 1, jstr ("m")⟩),
                (jstr ("c1"), jstr ("x"))],
    refs := [(jstr ("main"), jstr ("h1")), (jstr ("dev"), jstr ("h1"))],
    head := jstr ("main"),
    workingCard := emptyCard,
    trace := [] }

/-- C5 witness: the checkout guard theorem applied to the concrete clean
repository, switching from `main` to `dev`. -/
theorem C5_checkout_guard_witness :
    getBranchR checkoutState checkoutState.head = some (jstr ("h1")) ∧
    getCardAtCommitR parseCardConst checkoutState (jstr ("h1")) = some emptyCard ∧
    getBranchR checkoutState (jstr ("dev")) = some (jstr ("h1")) ∧
    (((checkoutOp parseCardConst (jstr ("dev")) checkoutState).1 =
        .error .uncommittedChanges ↔
      (diffCards emptyCard checkoutState.workingCard).changed = true) ∧
    ((diffCards emptyCard checkoutState.workingCard).changed = false →
      checkoutOp parseCardConst (jstr ("dev")) checkoutState =
        (.ok (), setHeadR (writeWorkingCardR checkoutState emptyCard) (jstr ("dev"))) ∧
      (setHeadR (writeWorkingCardR checkoutState emptyCard) (jstr ("dev"))).workingCard =
        emptyCard ∧
      (setHeadR (writeWorkingCardR checkoutState emptyCard) (jstr ("dev"))).head =
        jstr ("dev"))) :=
  ⟨by decide, by decide, by decide,
   C5_checkout_guard parseCardConst (jstr ("dev")) checkoutState (jstr ("h1")) (jstr ("h1"))
     emptyCard emptyCard (by decide) (by decide) (by decide) (by decide)⟩

/-- A repository whose tip commit references a card digest different from
that of the (empty) working card. -/
def commitStateFresh : RepoState :=
  { objects := [(jstr ("t1"), serializeCommit ⟨jstr ("zz"), none, jstr ("a"), 1, jstr ("m")⟩)],
    refs := [(jstr ("main"), jstr ("t1"))],
    head := jstr ("main"),
    workingCard := emptyCard,
    trace := [] }

/-- C4 witness: the commit theorem applied to the concrete repository, with
the identity skill resolver. -/
theorem C4_commit_noChanges_iff_witness :
    getBranchR commitStateFresh commitStateFresh.head = some (jstr ("t1")) ∧
    jstr ("t1") ≠ [] ∧
    jstr ("t1") ≠ hashObject .card (serializeCard (id commitStateFresh.workingCard)) ∧
    readObjectR commitStateFresh (jstr ("t1")) =
      some (serializeCommit ⟨jstr ("zz"), none, jstr ("a"), 1, jstr ("m")⟩) ∧
    parseCommit (jstr ("t1")) (serializeCommit ⟨jstr ("zz"), none, jstr ("a"), 1, jstr ("m")⟩) =
      .ok ⟨jstr ("t1"), jstr ("zz"), none, jstr ("a"), some 1, jstr ("m")⟩ ∧
    (((commitOp id (jstr ("proj")) 2 (jstr ("msg")) commitStateFresh).1 = .error .noChanges ↔
        (⟨jstr ("t1"), jstr ("zz"), none, jstr ("a"), some 1, jstr ("m")⟩ : ParsedCommit).card =
          hashObject .card (serializeCard (id commitStateFresh.workingCard))) ∧
      ((⟨jstr ("t1"), jstr ("zz"), none, jstr ("a"), some 1, jstr ("m")⟩ : ParsedCommit).card ≠
          hashObject .card (serializeCard (id commitStateFresh.workingCard)) →
        ∃ rec s', commitOp id (jstr ("proj")) 2 (jstr ("msg")) commitStateFresh =
            (.ok rec, s') ∧
          rec.parent = some (jstr ("t1")) ∧
          getBranchR s' commitStateFresh.head = some rec.hash ∧
          (∃ es, s'.trace = commitStateFresh.trace ++ es ∧
            es.getLast? = some (.setBranchRef commitStateFresh.head rec.hash)))) :=
  ⟨by decide, by decide, by decide, by decide, by decide,
   C4_commit_noChanges_iff id (jstr ("proj")) 2 (jstr ("msg")) commitStateFresh
     (jstr ("t1")) (serializeCommit ⟨jstr ("zz"), none, jstr ("a"), 1, jstr ("m")⟩)
     ⟨jstr ("t1"), jstr ("zz"), none, jstr ("a"), some 1, jstr ("m")⟩
     (by decide) (by decide) (by decide) (by decide) (by decide)⟩

/-- A repository whose tip commit's card digest IS the digest of the
re-serialized working card (nothing to commit). -/
def commitStateClean : RepoState :=
  { objects := [(jstr ("t2"),
      serializeCommit ⟨hashObject .card (serializeCard emptyCard), none, jstr ("a"), 1, jstr ("m")⟩)],
    refs := [(jstr ("main"), jstr ("t2"))],
    head := jstr ("main"),
    workingCard := emptyCard,
    trace := [] }

/-- C10 witness: the side-effects-on-NoChanges theorem applied to the
concrete clean repository. -/
theorem C10_commit_noChanges_side_effects_witness :
    getBranchR commitStateClean commitStateClean.head = some (jstr ("t2")) ∧
    parseCommit (jstr ("t2"))
      (serializeCommit ⟨hashObject .card (serializeCard emptyCard), none, jstr ("a"), 1, jstr ("m")⟩) =
      .ok ⟨jstr ("t2"), hashObject .card (serializeCard emptyCard), none, jstr ("a"),
        some 1, jstr ("m")⟩ ∧
    readObjectR commitStateClean (hashObject .card (serializeCard (id commitStateClean.workingCard))) =
      none ∧
    (∃ s', commitOp id (jstr ("proj")) 2 (jstr ("msg")) commitStateClean =
        (.error .noChanges, s') ∧
      s'.workingCard = id commitStateClean.workingCard ∧
      readObjectR s' (hashObject .card (serializeCard (id commitStateClean.workingCard))) =
        some (serializeCard (id commitStateClean.workingCard)) ∧
      s'.trace = commitStateClean.trace ++
        [.writeCardFile (id commitStateClean.workingCard),
         .writeObj (hashObject .card (serializeCard (id commitStateClean.workingCard)))
           (serializeCard (id commitStateClean.workingCard))]) :=
  ⟨by decide, by decide, by decide,
   C10_commit_noChanges_side_effects id (jstr ("proj")) 2 (jstr ("msg")) commitStateClean
     (jstr ("t2"))
     (serializeCommit ⟨hashObject .card (serializeCard emptyCard), none, jstr ("a"), 1, jstr ("m")⟩)
     ⟨jstr ("t2"), hashObject .card (serializeCard emptyCard), none, jstr ("a"), some 1, jstr ("m")⟩
     (by decide) (by decide) (by decide) (by decide) (by decide) (by decide) (by decide)⟩

end Nit
